import Mathlib

/-!
Shallow embedding of the nightshade sunlight-prediction engine
(src/terrain.py, src/solar.py, src/main.py) and proofs about it.

Machine reals are modelled as exact rationals: every arithmetic operation the
source performs (normalisation by `% 360`, linear interpolation, midpoint
bisection on microsecond-exact `timedelta`s) is exact at the granularity the
claims are stated at.  Code paths that raise a Python exception are modelled
as `Option`-returning definitions producing `none`.
-/

namespace Nightshade

/-- Python float modulo with modulus 360 (`azimuth % 360`): the unique
representative of the azimuth in `[0, 360)`. -/
def normAz (q : ℚ) : ℚ := q - 360 * (⌊q / 360⌋ : ℤ)

/-- Association-list counterpart of a Python dict lookup (`d[k]`, `k in d`).
The dicts built by this program have unique keys, so the first hit is the
only hit. -/
def assocLookup (a : ℚ) : List (ℚ × ℚ) → Option ℚ
  | [] => none
  | kv :: rest => if kv.1 = a then some kv.2 else assocLookup a rest

/-- Association-list counterpart of a Python dict update `d[k] = v`:
overwrite in place when the key is present, append otherwise (Python dicts
preserve insertion order). -/
def dictInsert (a v : ℚ) : List (ℚ × ℚ) → List (ℚ × ℚ)
  | [] => [(a, v)]
  | kv :: rest => if kv.1 = a then (a, v) :: rest else kv :: dictInsert a v rest

/-- `TerrainProfile` (src/terrain.py): `elevations` is the azimuth →
obstruction-angle dict, modelled as an association list with unique keys in
insertion order; `reference_elevation` is the observation-point elevation. -/
structure TerrainProfile where
  elevations : List (ℚ × ℚ)
  reference_elevation : ℚ
deriving DecidableEq

/-- The azimuth keys currently stored in the profile's elevations dict. -/
def TerrainProfile.azKeys (p : TerrainProfile) : List ℚ := p.elevations.map Prod.fst

/-- `TerrainProfile.add_elevation_point`: normalises the azimuth
(`azimuth = azimuth % 360`) and stores the elevation angle under it (the
source's `distance` argument is unused). -/
def TerrainProfile.add_elevation_point (p : TerrainProfile) (azimuth elevation_angle : ℚ) :
    TerrainProfile :=
  ⟨dictInsert (normAz azimuth) elevation_angle p.elevations, p.reference_elevation⟩

/-- `TerrainProfile.load_from_dict`: replaces the elevations dict with the
given data, converting keys and values to float but — unlike
`add_elevation_point` — not normalising the azimuth keys.  Duplicate keys in
the data keep the later value, as in the source's dict comprehension.
`load_from_file` parses JSON and delegates here with the parsed mapping
unchanged, so it stores exactly the same keys. -/
def load_from_dict (data : List (ℚ × ℚ)) (reference_elevation : ℚ) : TerrainProfile :=
  ⟨data.foldl (fun acc kv => dictInsert kv.1 kv.2 acc) [], reference_elevation⟩

/-- The sorted sample sequence `sorted(self.elevations.keys())` paired with
each key's dict value.  Because the dict's keys are unique, sorting the
(key, value) pairs by key is the same as sorting the keys and looking each
one back up in the dict. -/
def sortPairs (l : List (ℚ × ℚ)) : List (ℚ × ℚ) :=
  l.insertionSort (fun x y => x.1 ≤ y.1)

/-- `TerrainProfile.get_obstruction_angle`.  The query azimuth is normalised
into `[0, 360)`; an exact dict hit returns the stored value; otherwise the
sorted sample sequence is scanned for the first sample azimuth strictly
greater than the query (`idx`), and the three `idx` cases of the source
(`idx == 0`, interior `idx`, and `idx is None` wrap-around) interpolate.
`none` models the `IndexError` the source raises at `azimuths[-1]` when the
profile is empty (the unreachable index arms are also `none`). -/
def TerrainProfile.get_obstruction_angle (p : TerrainProfile) (azimuth : ℚ) : Option ℚ :=
  let az := normAz azimuth
  match assocLookup az p.elevations with
  | some v => some v
  | none =>
    let s := sortPairs p.elevations
    match s.findIdx? (fun kv => decide (az < kv.1)) with
    | some 0 => s.head?.map Prod.snd
    | some (i + 1) =>
      match s.get? i, s.get? (i + 1) with
      | some kv1, some kv2 =>
        some (kv1.2 + ((az - kv1.1) / (kv2.1 - kv1.1)) * (kv2.2 - kv1.2))
      | _, _ => none
    | none =>
      match s.getLast?, s.head? with
      | some kvl, some kvf =>
        some (kvl.2 + ((az - kvl.1) / (360 + kvf.1 - kvl.1)) * (kvf.2 - kvl.2))
      | _, _ => none

/-- `TerrainProfile.is_sun_blocked`: `sun_altitude <= obstruction_angle`.
`none` propagates the empty-profile `IndexError` of the lookup. -/
def TerrainProfile.is_sun_blocked (p : TerrainProfile) (sun_altitude sun_azimuth : ℚ) :
    Option Bool :=
  (p.get_obstruction_angle sun_azimuth).map (fun obstruction_angle =>
    decide (sun_altitude ≤ obstruction_angle))

/-!  src/solar.py.  The Astronomical Position Provider (astropy) is external
to the engine, so the sun's altitude is an arbitrary function parameter
`alt : ℚ → ℚ` of time.  `find_sunset_time` and `predict_sunlight_loss` use
time in minutes from midnight of the target day; `_find_altitude_crossing`
uses time in hours.  The source's unbounded `while` loops are given a `fuel`
argument; every theorem below supplies fuel beyond what the loop's own exit
conditions need, so the out-of-fuel arm is never the reason a result is
produced. -/

/-- `SolarCalculator._binary_search_altitude_crossing`: bisection while
`time_after - time_before > tolerance`; at the midpoint, `altitude > target`
moves `time_before` up, otherwise `time_after` moves down; returns
`time_after`. -/
def binary_search_altitude_crossing (alt : ℚ → ℚ) (target tol : ℚ) :
    ℕ → ℚ → ℚ → ℚ
  | 0, _, time_after => time_after
  | fuel + 1, time_before, time_after =>
    if time_after - time_before ≤ tol then time_after
    else
      let mid := time_before + (time_after - time_before) / 2
      if target < alt mid then
        binary_search_altitude_crossing alt target tol fuel mid time_after
      else
        binary_search_altitude_crossing alt target tol fuel time_before mid

/-- `SolarCalculator._binary_search_horizon_crossing`: the same bisection
loop with the target fixed at altitude 0. -/
def binary_search_horizon_crossing (alt : ℚ → ℚ) (tol : ℚ) (fuel : ℕ)
    (time_before time_after : ℚ) : ℚ :=
  binary_search_altitude_crossing alt 0 tol fuel time_before time_after

/-- Loop body of `SolarCalculator.find_sunset_time`, with time in minutes
from midnight of the target day: `current_time.day == dt.day` is
`current < 1440` and the `current_time.hour >= 23` break is `1380 ≤ current`
(when the step lands at 1440 or beyond, the source instead exits through the
`while` condition; either way the result is `none`). -/
def findSunsetAux (alt : ℚ → ℚ) (step : ℕ) (tol : ℚ) (bfuel : ℕ) :
    ℕ → ℚ → ℚ → Option ℚ
  | 0, _, _ => none
  | fuel + 1, prev_altitude, current =>
    if current < 1440 then
      let current2 := current + step
      let current_altitude := alt current2
      if 0 < prev_altitude ∧ current_altitude ≤ 0 then
        some (binary_search_horizon_crossing alt tol bfuel (current2 - step) current2)
      else if 1380 ≤ current2 then none
      else findSunsetAux alt step tol bfuel fuel current_altitude current2
    else none

/-- `SolarCalculator.find_sunset_time`: starts at 12:00 (minute 720) of the
target day with `prev_altitude = alt 720` and scans forward in
`step_minutes` increments for `prev_altitude > 0 and current_altitude <= 0`. -/
def find_sunset_time (alt : ℚ → ℚ) (step : ℕ) (tol : ℚ) (bfuel fuel : ℕ) : Option ℚ :=
  findSunsetAux alt step tol bfuel fuel (alt 720) 720

/-- Loop body of `SolarCalculator._find_altitude_crossing`, with time in
hours: the crossing test is `prev_diff * current_diff <= 0`, and the give-up
guard `abs((current_time - dt).days) > 1` is `1 < |⌊(current2 - dt) / 24⌋|`
(Python `timedelta.days` floors toward minus infinity). -/
def findAltitudeCrossingAux (alt : ℚ → ℚ) (target step dt tol : ℚ) (bfuel : ℕ) :
    ℕ → ℚ → ℚ → Option ℚ
  | 0, _, _ => none
  | fuel + 1, prev_diff, current =>
    let current2 := current + step
    let current_diff := alt current2 - target
    if prev_diff * current_diff ≤ 0 then
      some (binary_search_altitude_crossing alt target tol bfuel (current2 - step) current2)
    else if 1 < (⌊(current2 - dt) / 24⌋ : ℤ).natAbs then none
    else findAltitudeCrossingAux alt target step dt tol bfuel fuel current_diff current2

/-- `SolarCalculator._find_altitude_crossing`: `step` is +1 hour forward or
−1 hour backward, the scan starts at 12:00 of `dt`'s day
(`dt.replace(hour=12, minute=0, second=0, microsecond=0)`, i.e.
`24 * ⌊dt / 24⌋ + 12` hours), and on detection the bracket handed to the
bisection is `(current2 - step, current2)` — which for the backward search
puts the later instant first. -/
def find_altitude_crossing (alt : ℚ → ℚ) (dt target : ℚ) (search_forward : Bool)
    (tol : ℚ) (bfuel fuel : ℕ) : Option ℚ :=
  let step : ℚ := if search_forward then 1 else -1
  let start : ℚ := 24 * (⌊dt / 24⌋ : ℤ) + 12
  findAltitudeCrossingAux alt target step dt tol bfuel fuel (alt start - target) start

/-!  src/main.py: the Daily Window Composer `predict_sunlight_loss`. -/

/-- One sampled solar position, as the dict produced by
`SolarCalculator.get_solar_position` (time in minutes from midnight). -/
structure SolarPos where
  altitude : ℚ
  azimuth : ℚ
  time : ℚ
deriving DecidableEq

/-- The per-position filter of `predict_sunlight_loss`: with a terrain file
the position is kept when `not terrain.is_sun_blocked(...)`; without one,
when `altitude > 0`.  A `none` from the terrain lookup (empty profile) is the
exception escaping the loop. -/
def keepPosition (terrain : Option TerrainProfile) (altitude azimuth : ℚ) : Option Bool :=
  match terrain with
  | some tp => (tp.is_sun_blocked altitude azimuth).map (fun b => !b)
  | none => some (decide (0 < altitude))

/-- The position-collection loop of `predict_sunlight_loss`: iterate over the
minute indices, keep the positions the filter accepts, and propagate a
filter exception (`none`) out of the loop. -/
def sweep (alt az : ℚ → ℚ) (keep : ℚ → ℚ → Option Bool) :
    List ℕ → Option (List SolarPos)
  | [] => some []
  | k :: ks =>
    let t : ℚ := k
    match keep (alt t) (az t) with
    | none => none
    | some true => (sweep alt az keep ks).map (fun ps => ⟨alt t, az t, t⟩ :: ps)
    | some false => sweep alt az keep ks

/-- The fields of the dict returned by `predict_sunlight_loss` that the
claims are about. -/
structure PredictResult where
  has_sunlight : Bool
  first_direct_sunlight : Option ℚ
  sun_altitude_at_rise : Option ℚ
  sun_azimuth_at_rise : Option ℚ
  last_direct_sunlight : Option ℚ
  sun_altitude_at_loss : Option ℚ
  sun_azimuth_at_loss : Option ℚ
  terrain_obstruction : Bool
deriving DecidableEq

/-- The result-assembly tail of `predict_sunlight_loss`: sunrise is the first
collected position (`solar_positions[0]`), sunset the last
(`solar_positions[-1]`), and `has_sunlight` their non-emptiness. -/
def composeResult (solar_positions : List SolarPos) (terrain_obstruction : Bool) :
    PredictResult :=
  { has_sunlight := !solar_positions.isEmpty,
    first_direct_sunlight := solar_positions.head?.map SolarPos.time,
    sun_altitude_at_rise := solar_positions.head?.map SolarPos.altitude,
    sun_azimuth_at_rise := solar_positions.head?.map SolarPos.azimuth,
    last_direct_sunlight := solar_positions.getLast?.map SolarPos.time,
    sun_altitude_at_loss := solar_positions.getLast?.map SolarPos.altitude,
    sun_azimuth_at_loss := solar_positions.getLast?.map SolarPos.azimuth,
    terrain_obstruction := terrain_obstruction }

/-- `predict_sunlight_loss` (src/main.py): sample the day at one-minute
resolution (minutes 0..1439), filter by terrain blocking or by
`altitude > 0`, and report the first and last kept positions; `none` models
the empty-profile `IndexError` escaping to the CLI handler. -/
def predict_sunlight_loss (alt az : ℚ → ℚ) (terrain : Option TerrainProfile) :
    Option PredictResult :=
  (sweep alt az (keepPosition terrain) (List.range 1440)).map (fun solar_positions =>
    composeResult solar_positions terrain.isSome)

/-- Sunlight-window duration derived from the composer's result exactly as
the integration test computes it:
`last_direct_sunlight - first_direct_sunlight`, and 0 when either endpoint
is absent. -/
def windowDuration (r : PredictResult) : ℚ :=
  match r.first_direct_sunlight, r.last_direct_sunlight with
  | some a, some b => b - a
  | _, _ => 0

/-!  Helper lemmas about the azimuth normalisation. -/

theorem normAz_eq_fract (q : ℚ) : normAz q = 360 * Int.fract (q / 360) := by
  rw [normAz, Int.fract]
  ring

theorem normAz_nonneg (q : ℚ) : 0 ≤ normAz q := by
  rw [normAz_eq_fract]
  exact mul_nonneg (by norm_num) (Int.fract_nonneg _)

theorem normAz_lt (q : ℚ) : normAz q < 360 := by
  rw [normAz_eq_fract]
  have h := Int.fract_lt_one (q / 360)
  nlinarith

theorem normAz_eq_self {q : ℚ} (h0 : 0 ≤ q) (h1 : q < 360) : normAz q = q := by
  have : ⌊q / 360⌋ = 0 := by
    rw [Int.floor_eq_zero_iff]
    constructor
    · positivity
    · rw [div_lt_one (by norm_num)]
      simpa using h1
  simp [normAz, this]

theorem normAz_idem (q : ℚ) : normAz (normAz q) = normAz q :=
  normAz_eq_self (normAz_nonneg q) (normAz_lt q)

/-!  Helper lemmas about the elevations dict and its sorted view. -/

theorem assocLookup_eq_none {l : List (ℚ × ℚ)} {a : ℚ} (h : ∀ kv ∈ l, kv.1 ≠ a) :
    assocLookup a l = none := by
  induction l with
  | nil => rfl
  | cons kv rest ih =>
    rw [assocLookup, if_neg (h kv (by simp))]
    exact ih fun x hx => h x (by simp [hx])

theorem assocLookup_mem {l : List (ℚ × ℚ)} {a v : ℚ} (h : assocLookup a l = some v) :
    (a, v) ∈ l := by
  induction l with
  | nil => simp [assocLookup] at h
  | cons kv rest ih =>
    rw [assocLookup] at h
    by_cases hk : kv.1 = a
    · rw [if_pos hk, Option.some.injEq] at h
      have hkv : kv = (a, v) := by
        cases kv
        simp_all
      rw [← hkv]
      exact List.mem_cons_self _ _
    · rw [if_neg hk] at h
      exact List.mem_cons_of_mem _ (ih h)

theorem assocLookup_of_mem {l : List (ℚ × ℚ)} {a v : ℚ}
    (hnd : (l.map Prod.fst).Nodup) (hmem : (a, v) ∈ l) : assocLookup a l = some v := by
  induction l with
  | nil => simp at hmem
  | cons kv rest ih =>
    rw [List.map_cons, List.nodup_cons] at hnd
    rcases List.mem_cons.1 hmem with h | h
    · rw [← h, assocLookup, if_pos rfl]
    · have hne : kv.1 ≠ a := by
        intro he
        exact hnd.1 (he ▸ (List.mem_map.2 ⟨(a, v), h, rfl⟩))
      rw [assocLookup, if_neg hne]
      exact ih hnd.2 h

instance : IsTotal (ℚ × ℚ) (fun x y => x.1 ≤ y.1) := ⟨fun a b => le_total a.1 b.1⟩

instance : IsTrans (ℚ × ℚ) (fun x y => x.1 ≤ y.1) := ⟨fun _ _ _ h h2 => le_trans h h2⟩

theorem sortPairs_perm (l : List (ℚ × ℚ)) : List.Perm (sortPairs l) l :=
  List.perm_insertionSort _ l

theorem sortPairs_sorted (l : List (ℚ × ℚ)) :
    (sortPairs l).Sorted (fun x y => x.1 ≤ y.1) :=
  List.sorted_insertionSort _ l

theorem mem_of_mem_sortPairs {l : List (ℚ × ℚ)} {kv : ℚ × ℚ} (h : kv ∈ sortPairs l) :
    kv ∈ l :=
  (sortPairs_perm l).mem_iff.1 h

theorem sortPairs_ne_nil {l : List (ℚ × ℚ)} (h : l ≠ []) : sortPairs l ≠ [] := by
  intro hs
  have hp := sortPairs_perm l
  rw [hs] at hp
  exact h hp.nil_eq.symm

/-- On a non-empty profile every arm of the lookup produces a value: the
`IndexError` arm is reachable only when the sorted key list is empty. -/
theorem get_obstruction_angle_isSome (p : TerrainProfile) (q : ℚ)
    (hne : p.elevations ≠ []) :
    ∃ θ, p.get_obstruction_angle q = some θ := by
  have hs : sortPairs p.elevations ≠ [] := sortPairs_ne_nil hne
  simp only [TerrainProfile.get_obstruction_angle]
  split
  · exact ⟨_, rfl⟩
  split
  · obtain ⟨kvf, hkvf⟩ := Option.isSome_iff_exists.1
      ((List.head?_isSome (l := sortPairs p.elevations)).2 hs)
    rw [hkvf]
    exact ⟨_, rfl⟩
  · next i hf =>
    obtain ⟨hlen, -, -⟩ := List.findIdx?_eq_some_iff_getElem.1 hf
    rw [List.get?_eq_get (Nat.lt_of_succ_lt hlen), List.get?_eq_get hlen]
    exact ⟨_, rfl⟩
  · obtain ⟨kvl, hkvl⟩ := Option.isSome_iff_exists.1
      ((List.getLast?_isSome (l := sortPairs p.elevations)).2 hs)
    obtain ⟨kvf, hkvf⟩ := Option.isSome_iff_exists.1
      ((List.head?_isSome (l := sortPairs p.elevations)).2 hs)
    rw [hkvl, hkvf]
    exact ⟨_, rfl⟩

/-- C4 (claim): for every non-empty profile the blocking test is exactly
`sun_altitude <= obstruction_angle(sun_azimuth)`, so the boundary case
altitude = obstruction angle is blocked. -/
theorem blocked_iff_le_obstruction :
    ∀ (p : TerrainProfile) (sun_altitude sun_azimuth : ℚ),
      p.elevations ≠ [] →
      ∃ θ, p.get_obstruction_angle sun_azimuth = some θ ∧
        (p.is_sun_blocked sun_altitude sun_azimuth = some true ↔ sun_altitude ≤ θ) ∧
        p.is_sun_blocked θ sun_azimuth = some true := by
  intro p sun_altitude sun_azimuth hne
  obtain ⟨θ, hθ⟩ := get_obstruction_angle_isSome p sun_azimuth hne
  refine ⟨θ, hθ, ?_, ?_⟩
  · simp [TerrainProfile.is_sun_blocked, hθ]
  · simp [TerrainProfile.is_sun_blocked, hθ]

/-- Witness for C4 at the profile of test_is_sun_blocked_at_obstruction:
one sample 0° → 10°, queried at azimuth 0 and altitude 5. -/
theorem blocked_iff_le_obstruction_witness :
    ∃ θ, (TerrainProfile.mk [(0, 10)] 0).get_obstruction_angle 0 = some θ ∧
      ((TerrainProfile.mk [(0, 10)] 0).is_sun_blocked 5 0 = some true ↔ (5 : ℚ) ≤ θ) ∧
      (TerrainProfile.mk [(0, 10)] 0).is_sun_blocked θ 0 = some true :=
  blocked_iff_le_obstruction (TerrainProfile.mk [(0, 10)] 0) 5 0 (by simp)

/-- C6 (claim): the obstruction lookup is periodic with period 360: every
query is normalised by `azimuth % 360` before any other step, and `% 360` is
idempotent, so querying at `q` and at `q mod 360` are the same call. -/
theorem lookup_periodic_mod360 :
    ∀ (p : TerrainProfile) (q : ℚ),
      p.get_obstruction_angle q = p.get_obstruction_angle (normAz q) := by
  intro p q
  simp only [TerrainProfile.get_obstruction_angle, normAz_idem]

/-- C10 (claim): a profile holding exactly one sample returns that sample's
value at every azimuth query: an exact hit returns it directly, a query below
the sample azimuth takes the `idx == 0` arm, and a query above it takes the
wrap-around arm whose interpolation between the sample and itself collapses
to the stored value. -/
theorem single_sample_lookup_constant :
    ∀ (a v refElev q : ℚ),
      (TerrainProfile.mk [(a, v)] refElev).get_obstruction_angle q = some v := by
  intro a v refElev q
  unfold TerrainProfile.get_obstruction_angle
  simp only [assocLookup, sortPairs, List.insertionSort, List.orderedInsert]
  by_cases h : a = normAz q
  · simp [h]
  · rw [if_neg h]
    by_cases h2 : normAz q < a
    · simp [List.findIdx?_cons, h2]
    · simp only [List.findIdx?_cons, decide_eq_true_eq, if_neg h2, cond_false,
        List.findIdx?_nil, Option.map_none', List.getLast?_singleton, List.head?_cons]
      norm_num

/-- Exact hit: a stored sample with a normalised azimuth is returned by the
dict lookup before any interpolation happens. -/
theorem get_exact_hit (p : TerrainProfile) {A V : ℚ}
    (hnd : p.azKeys.Nodup) (hmem : (A, V) ∈ p.elevations) (h0 : 0 ≤ A) (h1 : A < 360) :
    p.get_obstruction_angle A = some V := by
  simp only [TerrainProfile.get_obstruction_angle, normAz_eq_self h0 h1,
    assocLookup_of_mem hnd hmem]

/-- Interior query: strictly between two adjacent samples of the sorted
sequence, the result is the linear interpolation by arc-length fraction. -/
theorem get_between (p : TerrainProfile) {pre post : List (ℚ × ℚ)} {a1 v1 a2 v2 q : ℚ}
    (hs : sortPairs p.elevations = pre ++ (a1, v1) :: (a2, v2) :: post)
    (hq0 : 0 ≤ q) (hq1 : q < 360) (hl : a1 < q) (hr : q < a2)
    (hnk : ∀ kv ∈ p.elevations, kv.1 ≠ q) :
    p.get_obstruction_angle q = some (v1 + (q - a1) / (a2 - a1) * (v2 - v1)) := by
  have hd1 : (decide (q < a1)) = false := decide_eq_false (not_lt.2 hl.le)
  have hd2 : (decide (q < a2)) = true := decide_eq_true hr
  have hpre : pre.findIdx? (fun kv => decide (q < kv.1)) = none := by
    rw [List.findIdx?_eq_none_iff]
    intro x hx
    have hsor := sortPairs_sorted p.elevations
    rw [hs] at hsor
    have hcross := (List.pairwise_append.1 hsor).2.2 x hx (a1, v1) (by simp)
    exact decide_eq_false (not_lt.2 (le_trans hcross hl.le))
  have hfind : (sortPairs p.elevations).findIdx? (fun kv => decide (q < kv.1)) =
      some (pre.length + 1) := by
    rw [hs, List.findIdx?_append, hpre, List.findIdx?_cons, List.findIdx?_cons]
    simp [hd1, hd2, Nat.add_comm]
  simp only [TerrainProfile.get_obstruction_angle, normAz_eq_self hq0 hq1,
    assocLookup_eq_none hnk]
  split
  · next hf => rw [hfind] at hf; simp at hf
  · next i hf =>
    rw [hfind, Option.some.injEq] at hf
    have hi : i = pre.length := by omega
    subst hi
    have hg1 : (sortPairs p.elevations).get? pre.length = some (a1, v1) := by
      rw [hs, List.get?_append_right (le_refl _), Nat.sub_self]
      rfl
    have hg2 : (sortPairs p.elevations).get? (pre.length + 1) = some (a2, v2) := by
      rw [hs, List.get?_append_right (Nat.le_succ _), Nat.succ_sub (le_refl _), Nat.sub_self]
      rfl
    rw [hg1, hg2]
  · next hf => rw [hfind] at hf; simp at hf

/-- Query below the smallest sample azimuth: the `idx == 0` arm returns the
smallest sample's value with no interpolation. -/
theorem get_before_first (p : TerrainProfile) {rest : List (ℚ × ℚ)} {a0 v0 q : ℚ}
    (hs : sortPairs p.elevations = (a0, v0) :: rest)
    (hq0 : 0 ≤ q) (hq1 : q < 360) (hlt : q < a0) :
    p.get_obstruction_angle q = some v0 := by
  have hsor := sortPairs_sorted p.elevations
  rw [hs] at hsor
  have hnk : ∀ kv ∈ p.elevations, kv.1 ≠ q := by
    intro kv hkv
    have hmem : kv ∈ (a0, v0) :: rest := by
      rw [← hs]
      exact (sortPairs_perm p.elevations).mem_iff.2 hkv
    rcases List.mem_cons.1 hmem with h | h
    · rw [h]
      exact ne_of_gt hlt
    · have := List.rel_of_sorted_cons hsor kv h
      exact ne_of_gt (lt_of_lt_of_le hlt this)
  have hfind : (sortPairs p.elevations).findIdx? (fun kv => decide (q < kv.1)) =
      some 0 := by
    rw [hs, List.findIdx?_cons]
    simp [hlt]
  simp only [TerrainProfile.get_obstruction_angle, normAz_eq_self hq0 hq1,
    assocLookup_eq_none hnk]
  split
  · next hf =>
    have hh : (sortPairs p.elevations).head? = some (a0, v0) := by rw [hs]; rfl
    rw [hh]
    rfl
  · next i hf => rw [hfind, Option.some.injEq] at hf; omega
  · next hf => rw [hfind] at hf; simp at hf

/-- Query above the largest sample azimuth: no sample is strictly greater,
so the wrap-around arm interpolates from the largest sample through 360°/0°
to the smallest one. -/
theorem get_after_last (p : TerrainProfile) {rest : List (ℚ × ℚ)} {a0 v0 aN vN q : ℚ}
    (hs : sortPairs p.elevations = (a0, v0) :: rest)
    (hlast : (sortPairs p.elevations).getLast? = some (aN, vN))
    (hq0 : 0 ≤ q) (hq1 : q < 360)
    (hgt : ∀ kv ∈ p.elevations, kv.1 < q) :
    p.get_obstruction_angle q = some (vN + (q - aN) / (360 + a0 - aN) * (v0 - vN)) := by
  have hnk : ∀ kv ∈ p.elevations, kv.1 ≠ q := fun kv hkv => ne_of_lt (hgt kv hkv)
  have hfind : (sortPairs p.elevations).findIdx? (fun kv => decide (q < kv.1)) =
      none := by
    rw [List.findIdx?_eq_none_iff]
    intro x hx
    exact decide_eq_false (not_lt.2 (hgt x ((sortPairs_perm p.elevations).mem_iff.1 hx)).le)
  simp only [TerrainProfile.get_obstruction_angle, normAz_eq_self hq0 hq1,
    assocLookup_eq_none hnk]
  split
  · next hf => rw [hfind] at hf; simp at hf
  · next i hf => rw [hfind] at hf; simp at hf
  · have hh : (sortPairs p.elevations).head? = some (a0, v0) := by rw [hs]; rfl
    rw [hlast, hh]

/-- C5 (claim): the four behaviours of the obstruction lookup on a non-empty
profile with normalised unique sample azimuths: an exact sample hit returns
the stored value, a query strictly between adjacent samples of the sorted
sequence linearly interpolates by arc-length fraction, a query below the
smallest sample azimuth returns that sample's value unchanged, and a query
above the largest sample azimuth interpolates wrapping through 360°/0° to
the smallest sample. -/
theorem lookup_interpolation_cases :
    (∀ (p : TerrainProfile) (A V : ℚ), p.azKeys.Nodup → (A, V) ∈ p.elevations →
      0 ≤ A → A < 360 → p.get_obstruction_angle A = some V) ∧
    (∀ (p : TerrainProfile) (pre post : List (ℚ × ℚ)) (a1 v1 a2 v2 q : ℚ),
      sortPairs p.elevations = pre ++ (a1, v1) :: (a2, v2) :: post →
      0 ≤ q → q < 360 → a1 < q → q < a2 → (∀ kv ∈ p.elevations, kv.1 ≠ q) →
      p.get_obstruction_angle q = some (v1 + (q - a1) / (a2 - a1) * (v2 - v1))) ∧
    (∀ (p : TerrainProfile) (rest : List (ℚ × ℚ)) (a0 v0 q : ℚ),
      sortPairs p.elevations = (a0, v0) :: rest → 0 ≤ q → q < 360 → q < a0 →
      p.get_obstruction_angle q = some v0) ∧
    (∀ (p : TerrainProfile) (rest : List (ℚ × ℚ)) (a0 v0 aN vN q : ℚ),
      sortPairs p.elevations = (a0, v0) :: rest →
      (sortPairs p.elevations).getLast? = some (aN, vN) →
      0 ≤ q → q < 360 → (∀ kv ∈ p.elevations, kv.1 < q) →
      p.get_obstruction_angle q = some (vN + (q - aN) / (360 + a0 - aN) * (v0 - vN))) :=
  ⟨fun p A V hnd hmem h0 h1 => get_exact_hit p hnd hmem h0 h1,
   fun p _ _ _ _ _ _ _ hs hq0 hq1 hl hr hnk => get_between p hs hq0 hq1 hl hr hnk,
   fun p _ _ _ _ hs hq0 hq1 hlt => get_before_first p hs hq0 hq1 hlt,
   fun p _ _ _ _ _ _ hs hlast hq0 hq1 hgt => get_after_last p hs hlast hq0 hq1 hgt⟩

/-- Witness for C5 at the profile {10° → 5, 90° → 20}: exact hit at 10,
interpolation at 50, clamp below at 5, wrap above at 180. -/
theorem lookup_interpolation_cases_witness :
    (TerrainProfile.mk [(10, 5), (90, 20)] 0).get_obstruction_angle 10 = some 5 ∧
    (TerrainProfile.mk [(10, 5), (90, 20)] 0).get_obstruction_angle 50 =
      some (5 + (50 - 10) / (90 - 10) * (20 - 5)) ∧
    (TerrainProfile.mk [(10, 5), (90, 20)] 0).get_obstruction_angle 5 = some 5 ∧
    (TerrainProfile.mk [(10, 5), (90, 20)] 0).get_obstruction_angle 180 =
      some (20 + (180 - 90) / (360 + 10 - 90) * (5 - 20)) :=
  ⟨lookup_interpolation_cases.1 (TerrainProfile.mk [(10, 5), (90, 20)] 0) 10 5
      (by decide) (by decide) (by norm_num) (by norm_num),
   lookup_interpolation_cases.2.1 (TerrainProfile.mk [(10, 5), (90, 20)] 0) [] [] 10 5 90 20 50
      (by decide) (by norm_num) (by norm_num) (by norm_num) (by norm_num) (by decide),
   lookup_interpolation_cases.2.2.1 (TerrainProfile.mk [(10, 5), (90, 20)] 0) [(90, 20)] 10 5 5
      (by decide) (by norm_num) (by norm_num) (by norm_num),
   lookup_interpolation_cases.2.2.2 (TerrainProfile.mk [(10, 5), (90, 20)] 0) [(90, 20)] 10 5 90 20 180
      (by decide) (by decide) (by norm_num) (by norm_num) (by decide)⟩

/-- C1 (claim refuted by the code): on an empty profile the exact-hit test
fails, the sorted key list is empty, the `for` loop never sets `idx`, and the
wrap-around arm evaluates `azimuths[-1]` on an empty list — an `IndexError`
(modelled `none`), not the `False` the spec promises, for every altitude and
azimuth. -/
theorem empty_profile_blocked_raises :
    ∀ (sun_altitude sun_azimuth refElev : ℚ),
      (TerrainProfile.mk [] refElev).is_sun_blocked sun_altitude sun_azimuth = none := by
  intro sun_altitude sun_azimuth refElev
  rfl

/-!  Toward C2: with normalised keys and non-negative obstruction values the
lookup is non-negative, so the terrain filter only ever keeps positions the
horizon filter also keeps. -/

theorem interp_nonneg {v1 v2 n d : ℚ} (hv1 : 0 ≤ v1) (hv2 : 0 ≤ v2)
    (hn : 0 ≤ n) (hd : n < d) : 0 ≤ v1 + n / d * (v2 - v1) := by
  have hd0 : 0 < d := lt_of_le_of_lt hn hd
  have hf0 : 0 ≤ n / d := div_nonneg hn hd0.le
  have hf1 : n / d ≤ 1 := (div_le_one hd0).2 hd.le
  nlinarith [mul_nonneg (sub_nonneg.2 hf1) hv1, mul_nonneg hf0 hv2]

/-- Every arm of the lookup returns a value between stored sample values, so
non-negative samples with normalised keys give a non-negative obstruction
angle at every azimuth. -/
theorem get_obstruction_angle_nonneg (p : TerrainProfile) (q : ℚ)
    (hne : p.elevations ≠ [])
    (hkeys : ∀ kv ∈ p.elevations, 0 ≤ kv.1 ∧ kv.1 < 360)
    (hvals : ∀ kv ∈ p.elevations, 0 ≤ kv.2) :
    ∃ θ, p.get_obstruction_angle q = some θ ∧ 0 ≤ θ := by
  have hs : sortPairs p.elevations ≠ [] := sortPairs_ne_nil hne
  have hmem : ∀ kv ∈ sortPairs p.elevations, kv ∈ p.elevations := fun kv h =>
    mem_of_mem_sortPairs h
  simp only [TerrainProfile.get_obstruction_angle]
  split
  · next v hl => exact ⟨v, rfl, hvals _ (assocLookup_mem hl)⟩
  next hl =>
  split
  · obtain ⟨kvf, hkvf⟩ := Option.isSome_iff_exists.1
      ((List.head?_isSome (l := sortPairs p.elevations)).2 hs)
    refine ⟨kvf.2, by rw [hkvf]; rfl, hvals _ (hmem _ (List.mem_of_mem_head? ?_))⟩
    rw [hkvf]
    rfl
  · next i hf =>
    obtain ⟨hlen, hpi, hprev⟩ := List.findIdx?_eq_some_iff_getElem.1 hf
    have hilen : i < (sortPairs p.elevations).length := Nat.lt_of_succ_lt hlen
    have hg1 : (sortPairs p.elevations).get? i =
        some ((sortPairs p.elevations).get ⟨i, hilen⟩) := List.get?_eq_get _
    have hg2 : (sortPairs p.elevations).get? (i + 1) =
        some ((sortPairs p.elevations).get ⟨i + 1, hlen⟩) := List.get?_eq_get _
    set kv1 := (sortPairs p.elevations).get ⟨i, hilen⟩ with hkv1
    set kv2 := (sortPairs p.elevations).get ⟨i + 1, hlen⟩ with hkv2
    have hm1 : kv1 ∈ p.elevations := hmem _ (List.get_mem _ _ _)
    have hm2 : kv2 ∈ p.elevations := hmem _ (List.get_mem _ _ _)
    have hub : normAz q < kv2.1 := by
      have := hpi
      simp only [List.get_eq_getElem] at hkv2
      rw [hkv2]
      simpa using this
    have hlb : kv1.1 ≤ normAz q := by
      have := hprev i (Nat.lt_succ_self i)
      simp only [List.get_eq_getElem] at hkv1
      rw [hkv1]
      simpa using this
    rw [hg1, hg2]
    exact ⟨_, rfl, interp_nonneg (hvals _ hm1) (hvals _ hm2)
      (sub_nonneg.2 hlb) (by linarith)⟩
  · next hf =>
    obtain ⟨kvl, hkvl⟩ := Option.isSome_iff_exists.1
      ((List.getLast?_isSome (l := sortPairs p.elevations)).2 hs)
    obtain ⟨kvf, hkvf⟩ := Option.isSome_iff_exists.1
      ((List.head?_isSome (l := sortPairs p.elevations)).2 hs)
    have hml : kvl ∈ p.elevations := hmem _ (List.mem_of_getLast?_eq_some hkvl)
    have hmf : kvf ∈ p.elevations := hmem _ (List.mem_of_mem_head? (by rw [hkvf]; rfl))
    have hlb : kvl.1 ≤ normAz q := by
      have := List.findIdx?_eq_none_iff.1 hf kvl (List.mem_of_getLast?_eq_some hkvl)
      simpa using this
    have hub : normAz q < 360 + kvf.1 :=
      lt_of_lt_of_le (normAz_lt q) (by linarith [(hkeys kvf hmf).1])
    rw [hkvl, hkvf]
    exact ⟨_, rfl, interp_nonneg (hvals _ hml) (hvals _ hmf)
      (sub_nonneg.2 hlb) (by linarith)⟩

/-!  Toward C2 and C8: how the composer's sweep evaluates when the filter
never raises. -/

theorem sweep_eq_of_total (alt az : ℚ → ℚ) (keep : ℚ → ℚ → Option Bool)
    (h : ∀ t, keep (alt t) (az t) ≠ none) (ks : List ℕ) :
    sweep alt az keep ks =
      some ((ks.filter fun k : ℕ => decide (keep (alt k) (az k) = some true)).map
        fun k : ℕ => SolarPos.mk (alt k) (az k) k) := by
  induction ks with
  | nil => rfl
  | cons k ks ih =>
    rw [sweep]
    cases hk : keep (alt (k : ℚ)) (az (k : ℚ)) with
    | none => exact absurd hk (h k)
    | some b =>
      cases b
      · rw [List.filter_cons_of_neg (by simp [hk])]
        exact ih
      · rw [List.filter_cons_of_pos (by simp [hk]), List.map_cons, ih]
        rfl

theorem sweep_all_false (alt az : ℚ → ℚ) (keep : ℚ → ℚ → Option Bool)
    (h : ∀ t, keep (alt t) (az t) = some false) (ks : List ℕ) :
    sweep alt az keep ks = some [] := by
  rw [sweep_eq_of_total alt az keep (fun t => by simp [h t]) ks]
  have hfil : (ks.filter fun k : ℕ => decide (keep (alt k) (az k) = some true)) = [] := by
    rw [List.filter_eq_nil_iff]
    intro a _
    simp [h]
  rw [hfil]
  rfl

theorem sweep_all_true (alt az : ℚ → ℚ) (keep : ℚ → ℚ → Option Bool)
    (h : ∀ t, keep (alt t) (az t) = some true) (ks : List ℕ) :
    sweep alt az keep ks = some (ks.map fun k : ℕ => SolarPos.mk (alt k) (az k) k) := by
  rw [sweep_eq_of_total alt az keep (fun t => by simp [h t]) ks]
  have hfil : (ks.filter fun k : ℕ => decide (keep (alt k) (az k) = some true)) = ks := by
    rw [List.filter_eq_self]
    intro a _
    simp [h]
  rw [hfil]

/-- Among the minute indices, the first one a weaker filter keeps is no later
than the first one a stronger filter keeps. -/
theorem filter_head_rel {r : ℕ → ℕ → Prop} (hrefl : ∀ x, r x x)
    {P Q : ℕ → Bool} (himp : ∀ k, P k = true → Q k = true) :
    ∀ ks : List ℕ, ks.Pairwise r → ∀ a, (ks.filter P).head? = some a →
      ∃ b, (ks.filter Q).head? = some b ∧ r b a := by
  intro ks
  induction ks with
  | nil => intro _ a ha; simp at ha
  | cons k ks ih =>
    intro hp a ha
    obtain ⟨h1, h2⟩ := List.pairwise_cons.1 hp
    by_cases hPk : P k = true
    · rw [List.filter_cons_of_pos hPk, List.head?_cons, Option.some.injEq] at ha
      exact ⟨k, by rw [List.filter_cons_of_pos (himp k hPk)]; rfl, ha ▸ hrefl k⟩
    · rw [List.filter_cons_of_neg hPk] at ha
      have hmem : a ∈ ks.filter P := List.mem_of_mem_head? (by rw [ha]; rfl)
      have hrka : r k a := h1 a (List.mem_filter.1 hmem).1
      by_cases hQk : Q k = true
      · exact ⟨k, by rw [List.filter_cons_of_pos hQk]; rfl, hrka⟩
      · obtain ⟨b, hb, hrb⟩ := ih h2 a ha
        exact ⟨b, by rw [List.filter_cons_of_neg hQk]; exact hb, hrb⟩

/-- Mirror image of `filter_head_rel` for the last kept index, obtained by
reversing the index list. -/
theorem filter_getLast_rel {r : ℕ → ℕ → Prop} (hrefl : ∀ x, r x x)
    {P Q : ℕ → Bool} (himp : ∀ k, P k = true → Q k = true)
    (ks : List ℕ) (hp : ks.Pairwise r) {a : ℕ}
    (ha : (ks.filter P).getLast? = some a) :
    ∃ b, (ks.filter Q).getLast? = some b ∧ r a b := by
  rw [List.getLast?_eq_head?_reverse, ← List.filter_reverse] at ha
  have hrev : ks.reverse.Pairwise (fun x y => r y x) := List.pairwise_reverse.2 hp
  obtain ⟨b, hb, hrb⟩ :=
    filter_head_rel (r := fun x y => r y x) (fun x => hrefl x) himp ks.reverse hrev a ha
  refine ⟨b, ?_, hrb⟩
  rw [List.getLast?_eq_head?_reverse, ← List.filter_reverse]
  exact hb

theorem head_le_getLast_of_pairwise {l : List ℕ} (hp : l.Pairwise (· ≤ ·))
    {a b : ℕ} (ha : l.head? = some a) (hb : l.getLast? = some b) : a ≤ b := by
  cases l with
  | nil => simp at ha
  | cons x xs =>
    rw [List.head?_cons, Option.some.injEq] at ha
    subst ha
    have hmem : b ∈ x :: xs := List.mem_of_getLast?_eq_some hb
    rcases List.mem_cons.1 hmem with h | h
    · rw [h]
    · exact (List.pairwise_cons.1 hp).1 b h

/-- Window duration of a composed result over filtered minute indices:
shrinking the set of kept indices can only shrink the window. -/
theorem duration_filter_le {P Q : ℕ → Bool} (himp : ∀ k, P k = true → Q k = true)
    (n : ℕ) (pos : ℕ → SolarPos) (hpos : ∀ k, (pos k).time = (k : ℚ))
    (bt bh : Bool) :
    windowDuration (composeResult (((List.range n).filter P).map pos) bt) ≤
      windowDuration (composeResult (((List.range n).filter Q).map pos) bh) := by
  have hW : ∀ (F : List ℕ) (b : Bool) (a c : ℕ), F.head? = some a → F.getLast? = some c →
      windowDuration (composeResult (F.map pos) b) = (c : ℚ) - (a : ℚ) := by
    intro F b a c hh hl
    simp [windowDuration, composeResult, hh, hl, hpos]
  have hW0 : ∀ (F : List ℕ) (b : Bool), F.head? = none →
      windowDuration (composeResult (F.map pos) b) = 0 := by
    intro F b hh
    simp [windowDuration, composeResult, hh]
  rcases hHt : ((List.range n).filter P).head? with _ | a_t
  · rw [hW0 _ _ hHt]
    rcases hHh : ((List.range n).filter Q).head? with _ | a_h
    · rw [hW0 _ _ hHh]
    · have hne : (List.range n).filter Q ≠ [] := by
        intro h0
        rw [h0] at hHh
        simp at hHh
      obtain ⟨c_h, hch⟩ := Option.isSome_iff_exists.1 (List.getLast?_isSome.2 hne)
      rw [hW _ _ _ _ hHh hch]
      have hac : a_h ≤ c_h := head_le_getLast_of_pairwise
        ((List.pairwise_le_range n).filter Q) hHh hch
      have : (a_h : ℚ) ≤ (c_h : ℚ) := Nat.cast_le.2 hac
      linarith
  · have hne : (List.range n).filter P ≠ [] := by
      intro h0
      rw [h0] at hHt
      simp at hHt
    obtain ⟨c_t, hct⟩ := Option.isSome_iff_exists.1 (List.getLast?_isSome.2 hne)
    obtain ⟨a_h, hah, haa⟩ := filter_head_rel (r := (· ≤ ·)) (fun x => le_refl x) himp
      (List.range n) (List.pairwise_le_range n) a_t hHt
    obtain ⟨c_h, hch, hcc⟩ := filter_getLast_rel (r := (· ≤ ·)) (fun x => le_refl x) himp
      (List.range n) (List.pairwise_le_range n) hct
    rw [hW _ _ _ _ hHt hct, hW _ _ _ _ hah hch]
    have h1 : (a_h : ℚ) ≤ (a_t : ℚ) := Nat.cast_le.2 haa
    have h2 : (c_t : ℚ) ≤ (c_h : ℚ) := Nat.cast_le.2 hcc
    linarith

/-- C2 amended (the claim as stated fails for profiles with negative
obstruction angles, see the counterexample): for a non-empty profile with
normalised azimuth keys and non-negative obstruction values, every position
the terrain filter keeps (`altitude > obstruction ≥ 0`) is also kept by the
horizon filter (`altitude > 0`), so the terrain window duration never
exceeds the horizon window duration. -/
theorem terrain_window_le_horizon :
    ∀ (p : TerrainProfile) (alt az : ℚ → ℚ),
      p.elevations ≠ [] →
      (∀ kv ∈ p.elevations, 0 ≤ kv.1 ∧ kv.1 < 360) →
      (∀ kv ∈ p.elevations, 0 ≤ kv.2) →
      ∃ rt rh, predict_sunlight_loss alt az (some p) = some rt ∧
        predict_sunlight_loss alt az none = some rh ∧
        windowDuration rt ≤ windowDuration rh := by
  intro p alt az hne hkeys hvals
  have hget := fun q => get_obstruction_angle_nonneg p q hne hkeys hvals
  have htot : ∀ t, keepPosition (some p) (alt t) (az t) ≠ none := by
    intro t
    obtain ⟨θ, hθ, -⟩ := hget (az t)
    simp [keepPosition, TerrainProfile.is_sun_blocked, hθ]
  have hsw_t := sweep_eq_of_total alt az (keepPosition (some p)) htot (List.range 1440)
  have hsw_h := sweep_eq_of_total alt az (keepPosition none)
    (fun t => by simp [keepPosition]) (List.range 1440)
  have himp : ∀ k : ℕ,
      (decide (keepPosition (some p) (alt k) (az k) = some true)) = true →
      (decide (keepPosition none (alt k) (az k) = some true)) = true := by
    intro k hk
    rw [decide_eq_true_eq] at hk
    obtain ⟨θ, hθ, hθ0⟩ := hget (az (k : ℚ))
    simp only [keepPosition, TerrainProfile.is_sun_blocked, hθ, Option.map_some',
      Option.some.injEq] at hk
    rw [decide_eq_true_eq]
    simp only [keepPosition, Option.some.injEq]
    have halt : θ < alt (k : ℚ) := by
      by_contra hcon
      rw [not_lt] at hcon
      rw [decide_eq_true hcon] at hk
      simp at hk
    exact decide_eq_true (lt_of_le_of_lt hθ0 halt)
  refine ⟨composeResult (((List.range 1440).filter fun k : ℕ =>
      decide (keepPosition (some p) (alt k) (az k) = some true)).map fun k : ℕ =>
      SolarPos.mk (alt k) (az k) k) true,
    composeResult (((List.range 1440).filter fun k : ℕ =>
      decide (keepPosition none (alt k) (az k) = some true)).map fun k : ℕ =>
      SolarPos.mk (alt k) (az k) k) false, ?_, ?_, ?_⟩
  · rw [predict_sunlight_loss, hsw_t]
    rfl
  · rw [predict_sunlight_loss, hsw_h]
    rfl
  · exact duration_filter_le himp 1440 _ (fun k => rfl) true false

/-- Witness for C2 (amended) on the profile {0° → 10} with the sun fixed at
altitude −5: both windows are empty, so both durations are 0. -/
theorem terrain_window_le_horizon_witness :
    ∃ rt rh,
      predict_sunlight_loss (fun _ => -5) (fun _ => 0)
        (some (TerrainProfile.mk [(0, 10)] 0)) = some rt ∧
      predict_sunlight_loss (fun _ => -5) (fun _ => 0) none = some rh ∧
      windowDuration rt ≤ windowDuration rh :=
  terrain_window_le_horizon (TerrainProfile.mk [(0, 10)] 0) (fun _ => -5) (fun _ => 0)
    (by simp) (by decide) (by decide)

/-- Counterexample to C2 as stated: a non-empty profile whose obstruction
angle is −10° keeps the sun "visible" all day while the sun sits at −5°
altitude, below the horizon: the terrain window is 1439 minutes while the
horizon window is empty, so applying the profile increased the window. -/
theorem terrain_window_can_exceed_horizon :
    ∃ rt rh,
      predict_sunlight_loss (fun _ => -5) (fun _ => 0)
        (some (TerrainProfile.mk [(0, -10)] 0)) = some rt ∧
      predict_sunlight_loss (fun _ => -5) (fun _ => 0) none = some rh ∧
      windowDuration rh < windowDuration rt := by
  have hgetm : (TerrainProfile.mk [(0, -10)] 0).get_obstruction_angle 0 = some (-10) := by
    norm_num [TerrainProfile.get_obstruction_angle, normAz, assocLookup]
  have hktrue : ∀ t : ℚ,
      keepPosition (some (TerrainProfile.mk [(0, -10)] 0))
        ((fun _ : ℚ => (-5 : ℚ)) t) ((fun _ : ℚ => (0 : ℚ)) t) = some true := by
    intro t
    simp [keepPosition, TerrainProfile.is_sun_blocked, hgetm]
    norm_num
  have hkfalse : ∀ t : ℚ,
      keepPosition none ((fun _ : ℚ => (-5 : ℚ)) t) ((fun _ : ℚ => (0 : ℚ)) t) =
        some false := by
    intro t
    simp [keepPosition]
  have hsw_t := sweep_all_true (fun _ => -5) (fun _ => 0) _ hktrue (List.range 1440)
  have hsw_h := sweep_all_false (fun _ => -5) (fun _ => 0) _ hkfalse (List.range 1440)
  have h1440 : (1440 : ℕ) = 1439 + 1 := rfl
  have hh : (List.range 1440).head? = some 0 := by
    rw [h1440, List.range_succ_eq_map]
    rfl
  have hl : (List.range 1440).getLast? = some 1439 := by
    rw [h1440, List.range_succ]
    exact List.getLast?_concat _
  refine ⟨composeResult ((List.range 1440).map fun k : ℕ =>
      SolarPos.mk ((fun _ : ℚ => (-5 : ℚ)) k) ((fun _ : ℚ => (0 : ℚ)) k) k) true,
    composeResult ([] : List SolarPos) false, ?_, ?_, ?_⟩
  · rw [predict_sunlight_loss, hsw_t]
    rfl
  · rw [predict_sunlight_loss, hsw_h]
    rfl
  · have hdt : windowDuration (composeResult
        ((List.range 1440).map fun k : ℕ =>
          SolarPos.mk ((fun _ : ℚ => (-5 : ℚ)) k) ((fun _ : ℚ => (0 : ℚ)) k) k)
        true) = 1439 := by
      simp [windowDuration, composeResult, hh, hl]
    have hdh : windowDuration (composeResult ([] : List SolarPos) false) = 0 := by
      simp [windowDuration, composeResult]
    rw [hdt, hdh]
    norm_num

/-!  Toward C8: a scan that never sees a sign change returns `none`. -/

theorem findAltitudeCrossingAux_none (alt : ℚ → ℚ) (target step dt tol : ℚ) (bfuel : ℕ)
    (H : ∀ t : ℚ, 0 < (alt t - target) * (alt (t + step) - target)) :
    ∀ (fuel : ℕ) (current : ℚ),
      findAltitudeCrossingAux alt target step dt tol bfuel fuel
        (alt current - target) current = none := by
  intro fuel
  induction fuel with
  | zero => intro current; rfl
  | succ n ih =>
    intro current
    simp only [findAltitudeCrossingAux]
    rw [if_neg (not_le.2 (H current))]
    by_cases hb : 1 < (⌊(current + step - dt) / 24⌋ : ℤ).natAbs
    · rw [if_pos hb]
    · rw [if_neg hb]
      exact ih (current + step)

/-- C8 (claim): a crossing search whose scan sees no sign change within its
bound returns `none` rather than raising, and on a day whose altitude never
exceeds 0° the composer (without terrain) reports `has_sunlight = false`
with every dependent time field `none`, without raising. -/
theorem no_crossing_yields_none_and_no_sunlight :
    (∀ (alt : ℚ → ℚ) (dt target tol : ℚ) (search_forward : Bool) (bfuel fuel : ℕ),
      (∀ t : ℚ,
        0 < (alt t - target) * (alt (t + (if search_forward then 1 else -1)) - target)) →
      find_altitude_crossing alt dt target search_forward tol bfuel fuel = none) ∧
    (∀ (alt az : ℚ → ℚ), (∀ t, alt t ≤ 0) →
      ∃ r, predict_sunlight_loss alt az none = some r ∧ r.has_sunlight = false ∧
        r.first_direct_sunlight = none ∧ r.sun_altitude_at_rise = none ∧
        r.sun_azimuth_at_rise = none ∧ r.last_direct_sunlight = none ∧
        r.sun_altitude_at_loss = none ∧ r.sun_azimuth_at_loss = none) := by
  constructor
  · intro alt dt target tol search_forward bfuel fuel H
    simp only [find_altitude_crossing]
    exact findAltitudeCrossingAux_none alt target _ dt tol bfuel H fuel _
  · intro alt az h
    have hkf : ∀ t : ℚ, keepPosition none (alt t) (az t) = some false := by
      intro t
      simp [keepPosition, not_lt.2 (h t)]
    rw [predict_sunlight_loss, sweep_all_false alt az _ hkf (List.range 1440)]
    exact ⟨_, rfl, rfl, rfl, rfl, rfl, rfl, rfl, rfl⟩

/-- Witness for C8: a constant altitude of 1 never crosses target 0 in the
twilight scan, and a constant altitude of −5 gives a day with no sunlight
and all time fields absent. -/
theorem no_crossing_yields_none_and_no_sunlight_witness :
    find_altitude_crossing (fun _ => 1) 0 0 true 1 5 50 = none ∧
    ∃ r, predict_sunlight_loss (fun _ => -5) (fun _ => 0) none = some r ∧
      r.has_sunlight = false ∧
      r.first_direct_sunlight = none ∧ r.sun_altitude_at_rise = none ∧
      r.sun_azimuth_at_rise = none ∧ r.last_direct_sunlight = none ∧
      r.sun_altitude_at_loss = none ∧ r.sun_azimuth_at_loss = none :=
  ⟨no_crossing_yields_none_and_no_sunlight.1 (fun _ => 1) 0 0 1 true 5 50
      (by intro t; norm_num),
   no_crossing_yields_none_and_no_sunlight.2 (fun _ => -5) (fun _ => 0)
      (by intro t; norm_num)⟩

/-!  Toward C7: what each loading path does to the stored azimuth keys. -/

theorem dictInsert_keys_subset (a v : ℚ) (l : List (ℚ × ℚ)) :
    ((dictInsert a v l).map Prod.fst) ⊆ a :: l.map Prod.fst := by
  induction l with
  | nil =>
    intro x hx
    simp [dictInsert] at hx
    simp [hx]
  | cons kv rest ih =>
    rw [dictInsert]
    by_cases h : kv.1 = a
    · rw [if_pos h]
      intro x hx
      simp only [List.map_cons, List.mem_cons] at hx ⊢
      tauto
    · rw [if_neg h]
      intro x hx
      simp only [List.map_cons, List.mem_cons] at hx ⊢
      rcases hx with h1 | h1
      · tauto
      · have h2 := ih h1
        simp only [List.mem_cons] at h2
        tauto

theorem assocLookup_dictInsert (a v : ℚ) (l : List (ℚ × ℚ)) :
    assocLookup a (dictInsert a v l) = some v := by
  induction l with
  | nil => simp [dictInsert, assocLookup]
  | cons kv rest ih =>
    rw [dictInsert]
    by_cases h : kv.1 = a
    · rw [if_pos h]
      simp [assocLookup]
    · rw [if_neg h]
      rw [assocLookup, if_neg h]
      exact ih

theorem load_keys_subset :
    ∀ (data acc : List (ℚ × ℚ)),
      ((data.foldl (fun acc kv => dictInsert kv.1 kv.2 acc) acc).map Prod.fst) ⊆
        acc.map Prod.fst ++ data.map Prod.fst := by
  intro data
  induction data with
  | nil => intro acc; simp
  | cons kv rest ih =>
    intro acc
    rw [List.foldl_cons]
    intro x hx
    have h1 := ih (dictInsert kv.1 kv.2 acc) hx
    rw [List.mem_append] at h1
    rcases h1 with h1 | h1
    · have h2 := dictInsert_keys_subset kv.1 kv.2 acc h1
      simp only [List.mem_cons] at h2
      simp only [List.map_cons, List.mem_append, List.mem_cons]
      tauto
    · simp only [List.map_cons, List.mem_append, List.mem_cons]
      tauto

/-- C7 amended (the claim as stated fails for `load_from_dict`, see the
counterexample): `add_elevation_point` normalises the azimuth into `[0,360)`
before storing — preserving the all-keys-normalised invariant — and stores
the obstruction value unvalidated; `load_from_dict` (and with it
`load_from_file`) stores exactly the keys given in the data, performing no
normalisation of its own. -/
theorem add_point_normalizes_keys :
    (∀ (p : TerrainProfile) (azimuth elevation_angle : ℚ),
      (∀ a ∈ p.azKeys, 0 ≤ a ∧ a < 360) →
      ∀ a ∈ (p.add_elevation_point azimuth elevation_angle).azKeys, 0 ≤ a ∧ a < 360) ∧
    (∀ (p : TerrainProfile) (azimuth elevation_angle : ℚ),
      assocLookup (normAz azimuth)
        (p.add_elevation_point azimuth elevation_angle).elevations =
          some elevation_angle) ∧
    (∀ (data : List (ℚ × ℚ)) (refElev k : ℚ),
      k ∈ (load_from_dict data refElev).azKeys → k ∈ data.map Prod.fst) := by
  refine ⟨?_, ?_, ?_⟩
  · intro p azimuth elevation_angle hkeys a ha
    have h1 := dictInsert_keys_subset (normAz azimuth) elevation_angle p.elevations ha
    simp only [List.mem_cons] at h1
    rcases h1 with h1 | h1
    · rw [h1]
      exact ⟨normAz_nonneg azimuth, normAz_lt azimuth⟩
    · exact hkeys a h1
  · intro p azimuth elevation_angle
    exact assocLookup_dictInsert _ _ _
  · intro data refElev k hk
    have h1 := load_keys_subset data [] hk
    simpa using h1

/-- Witness for C7 (amended): adding azimuth 400 to an empty profile stores
it under 40 ∈ [0,360) with its value intact, while `load_from_dict` of the
same data keeps the raw key. -/
theorem add_point_normalizes_keys_witness :
    (∀ a ∈ ((TerrainProfile.mk [] 0).add_elevation_point 400 5).azKeys,
      0 ≤ a ∧ a < 360) ∧
    assocLookup (normAz 400)
      ((TerrainProfile.mk [] 0).add_elevation_point 400 5).elevations = some 5 ∧
    (400 : ℚ) ∈ ([((400 : ℚ), (5 : ℚ))]).map Prod.fst :=
  ⟨add_point_normalizes_keys.1 (TerrainProfile.mk [] 0) 400 5
      (by simp [TerrainProfile.azKeys]),
   add_point_normalizes_keys.2.1 (TerrainProfile.mk [] 0) 400 5,
   add_point_normalizes_keys.2.2 [((400 : ℚ), (5 : ℚ))] 0 400
      (by simp [TerrainProfile.azKeys, load_from_dict, dictInsert])⟩

/-- Counterexample to C7 as stated: loading the dict {400: 5} stores the
azimuth key 400 as-is, outside [0,360). -/
theorem load_from_dict_keeps_unnormalized_key :
    (load_from_dict [(400, 5)] 0).azKeys = [400] ∧ ¬((400 : ℚ) < 360) := by
  constructor
  · rfl
  · norm_num

/-!  Toward C9 and C3: one-step behaviour of the two coarse scans. -/

theorem findSunsetAux_none (alt : ℚ → ℚ) (step : ℕ) (tol : ℚ) (bfuel : ℕ)
    (h : ∀ t, alt t ≤ 0) :
    ∀ (fuel : ℕ) (prev current : ℚ), prev ≤ 0 →
      findSunsetAux alt step tol bfuel fuel prev current = none := by
  intro fuel
  induction fuel with
  | zero => intro prev current _; rfl
  | succ n ih =>
    intro prev current hprev
    simp only [findSunsetAux]
    by_cases hc : current < 1440
    · rw [if_pos hc, if_neg (fun hcon => absurd hprev (not_le.2 hcon.1))]
      by_cases hb : (1380 : ℚ) ≤ current + step
      · rw [if_pos hb]
      · rw [if_neg hb]
        exact ih _ _ (h _)
    · rw [if_neg hc]

/-- C9 amended (the claim as stated fails for the horizon search, see the
counterexample): the twilight scan `_find_altitude_crossing` detects a
crossing at a step exactly on `prev_diff * current_diff <= 0`; the horizon
scan `find_sunset_time` instead requires `prev_altitude > 0 and
current_altitude <= 0`, so a pair whose previous sample touches zero
(product exactly 0) is detected by the twilight rule but not by the horizon
scan, which then scans on and returns `none` if the altitude stays at or
below zero. -/
theorem scan_detection_rules :
    (∀ (alt : ℚ → ℚ) (target step dt tol : ℚ) (bfuel fuel : ℕ) (prev current : ℚ),
      prev * (alt (current + step) - target) ≤ 0 →
      findAltitudeCrossingAux alt target step dt tol bfuel (fuel + 1) prev current =
        some (binary_search_altitude_crossing alt target tol bfuel
          current (current + step))) ∧
    (∀ (alt : ℚ → ℚ) (step : ℕ) (tol : ℚ) (bfuel fuel : ℕ) (prev current : ℚ),
      current < 1440 → 0 < prev → alt (current + step) ≤ 0 →
      findSunsetAux alt step tol bfuel (fuel + 1) prev current =
        some (binary_search_horizon_crossing alt tol bfuel
          current (current + step))) ∧
    (∀ (alt : ℚ → ℚ) (step : ℕ) (tol : ℚ) (bfuel fuel : ℕ),
      (∀ t, alt t ≤ 0) →
      find_sunset_time alt step tol bfuel fuel = none) := by
  refine ⟨?_, ?_, ?_⟩
  · intro alt target step dt tol bfuel fuel prev current h
    simp only [findAltitudeCrossingAux]
    rw [if_pos h]
    have harg : current + step - step = current := by ring
    rw [harg]
  · intro alt step tol bfuel fuel prev current hc hp ha
    simp only [findSunsetAux]
    rw [if_pos hc, if_pos ⟨hp, ha⟩]
    have harg : current + (step : ℚ) - (step : ℚ) = current := by ring
    rw [harg]
  · intro alt step tol bfuel fuel h
    rw [find_sunset_time]
    exact findSunsetAux_none alt step tol bfuel h fuel _ 720 (h 720)

/-- Witness for C9 (amended): a zero previous diff is detected by the
twilight rule; a positive-to-nonpositive pair is detected by the horizon
rule; an everywhere-nonpositive day makes the horizon scan return `none`. -/
theorem scan_detection_rules_witness :
    findAltitudeCrossingAux (fun _ => -1) 0 1 0 1 7 (10 + 1) 0 0 =
      some (binary_search_altitude_crossing (fun _ => -1) 0 1 7 0 (0 + 1)) ∧
    findSunsetAux (fun _ => -1) 1 1 7 (10 + 1) 1 720 =
      some (binary_search_horizon_crossing (fun _ => -1) 1 7 720 (720 + 1)) ∧
    find_sunset_time (fun _ => -1) 1 1 7 2000 = none :=
  ⟨scan_detection_rules.1 (fun _ => -1) 0 1 0 1 7 10 0 0 (by norm_num),
   scan_detection_rules.2.1 (fun _ => -1) 1 1 7 10 1 720 (by norm_num) (by norm_num)
      (by norm_num),
   scan_detection_rules.2.2 (fun _ => -1) 1 1 7 2000 (by intro t; norm_num)⟩

/-- Counterexample to C9 as stated: an altitude sequence that touches zero at
the 12:00 anchor sample and is negative afterwards satisfies the product
condition `diff_prev * diff_curr ≤ 0` on the very first pair of consecutive
samples, yet `find_sunset_time` (which requires `prev_altitude > 0`
strictly) never detects it and returns `none`. -/
theorem horizon_scan_misses_zero_touch :
    ((fun t : ℚ => if t ≤ 720 then (0 : ℚ) else -1) 720 - 0) *
      ((fun t : ℚ => if t ≤ 720 then (0 : ℚ) else -1) 721 - 0) ≤ 0 ∧
    find_sunset_time (fun t : ℚ => if t ≤ 720 then (0 : ℚ) else -1) 1 1 10 2000 =
      none := by
  constructor
  · norm_num
  · have hle : ∀ t : ℚ, (if t ≤ 720 then (0 : ℚ) else -1) ≤ 0 := by
      intro t
      split <;> norm_num
    rw [find_sunset_time]
    exact findSunsetAux_none _ 1 1 10 hle 2000 _ 720 (hle 720)

/-- C3 (the code violates the claim for the backward dawn search): with the
synthetic altitude `alt t = t - 11.5` (hours) whose unique zero is at
t = 11.5, the backward search from 12:00 detects the crossing on its first
1-hour step but hands the bisection the bracket (12, 11) — later instant
first — so the bisection's width test `time_after - time_before > tolerance`
is negative, the loop never runs, and the returned instant 11 is half an
hour (1800 s) from the true crossing instead of within the 1-second
tolerance. -/
theorem dawn_bisection_returns_coarse_sample :
    find_altitude_crossing (fun t : ℚ => t - 23/2) 0 0 false (1/3600) 30 40 =
      some 11 ∧
    (fun t : ℚ => t - 23/2) (23/2) = 0 ∧
    (1/3600 : ℚ) < |(11 : ℚ) - 23/2| := by
  refine ⟨?_, by norm_num, ?_⟩
  · simp only [find_altitude_crossing]
    have hstart : (24 : ℚ) * ((⌊(0 : ℚ) / 24⌋ : ℤ) : ℚ) + 12 = 12 := by norm_num
    rw [if_neg (by simp), hstart]
    rw [show (40 : ℕ) = 39 + 1 from rfl]
    simp only [findAltitudeCrossingAux]
    rw [if_pos (by norm_num)]
    have h1 : (12 : ℚ) + -1 - -1 = 12 := by norm_num
    have h2 : (12 : ℚ) + -1 = 11 := by norm_num
    rw [h1, h2]
    rw [show (30 : ℕ) = 29 + 1 from rfl]
    rw [binary_search_altitude_crossing]
    rw [if_pos (by norm_num)]
  · have h : (11 : ℚ) - 23 / 2 = -(1 / 2) := by norm_num
    rw [h, abs_neg, abs_of_pos (by norm_num : (0 : ℚ) < 1 / 2)]
    norm_num

end Nightshade
